import Mathlib

/-!
Verification of the podpac evaluation core against its specification.

The definitions below are shallow embeddings of the Python sources:

* `podpac/core/algorithm/statistics.py` — the `Reduce` base node and its
  `Mean`/`Sum`/`Count` children (chunked streaming reductions);
* `podpac/core/data/data.py` — the `DataSource` node (`execute`,
  `get_data_subset`, `interpolate_point_data`).

Machine floats are modelled as exact rationals; a NaN cell is `none` in
`Option ℚ`.  NaN-aware reductions (numpy/xarray `skipna` semantics) drop
`none` cells.  Components of the repository whose implementation files are
not in the sources (the compositor and the 1-d coordinate `select`) are
modelled from the specification; their doc comments say so explicitly.
-/

/-! ## NaN-aware cell arithmetic (numpy/xarray skipna semantics) -/

/-- `np.nansum` / `x.sum(dim=...)` with xarray's default `skipna=True`,
restricted to the cells of one output slot: the sum of the finite cells
(an all-NaN slot sums to 0). -/
def nansum (l : List (Option ℚ)) : ℚ :=
  (l.filterMap id).sum

/-- `np.isfinite(x).sum(dim=...)`: the number of finite cells. -/
def count_finite (l : List (Option ℚ)) : ℕ :=
  (l.filterMap id).length

/-! ## Mean reducer (`podpac/core/algorithm/statistics.py`, class `Mean`)

A reduction along the reduced dims `R` acts independently on each output
cell, so an array is modelled per output cell: the list of input cells
that collapse onto that output cell.  A tiling of the input induces, at
each output cell, a partition of that list into the per-tile sublists;
concatenating the tiles restores the full list. -/

/-- `Mean.reduce`: `x.mean(dim=self.dims)` — the NaN-aware mean of the
cells that collapse onto one output cell; NaN when no cell is finite
(xarray's skipna mean of an all-NaN slice). -/
def Mean.reduce (l : List (Option ℚ)) : Option ℚ :=
  if count_finite l = 0 then none
  else some (nansum l / (count_finite l : ℚ))

/-- `Mean.reduce_chunked`: accumulate `s += x.sum(dim=dims)` and
`n += np.isfinite(x).sum(dim=dims)` over the tiles, then emit `s / n`
(IEEE `0/0` is NaN, modelled by the `n = 0` branch). -/
def Mean.reduce_chunked (tiles : List (List (Option ℚ))) : Option ℚ :=
  let s : ℚ := (tiles.map nansum).sum
  let n : ℕ := (tiles.map count_finite).sum
  if n = 0 then none else some (s / (n : ℚ))

theorem nansum_flatten (tiles : List (List (Option ℚ))) :
    nansum tiles.flatten = (tiles.map nansum).sum := by
  unfold nansum
  rw [List.filterMap_flatten, List.sum_flatten, List.map_map]
  rfl

theorem count_finite_flatten (tiles : List (List (Option ℚ))) :
    count_finite tiles.flatten = (tiles.map count_finite).sum := by
  unfold count_finite
  rw [List.filterMap_flatten, List.length_flatten, List.map_map]
  rfl

/-- C1: For a Mean reducer over any set of reduced dimensions, the chunked
streaming computation (per-output-cell NaN-aware sums `S` and finite counts
`N` accumulated over the tiles, emitting `S / N`) returns, at every output
cell, exactly the one-shot NaN-aware mean of the fully materialized input,
for every input and every tiling of it (the tiles of an output cell
concatenate to its full cell list).  Exact equality in ℚ — including NaN
(`none`) agreement — implies the claimed 1e-10 relative tolerance. -/
theorem Mean.reduce_chunked_eq_reduce (tiles : List (List (Option ℚ))) :
    Mean.reduce_chunked tiles = Mean.reduce tiles.flatten := by
  unfold Mean.reduce_chunked Mean.reduce
  rw [nansum_flatten, count_finite_flatten]

/-! ## Reduce.chunk_shape (`podpac/core/algorithm/statistics.py`, lines 82–103)

```
d = {k: coords[k].size for k in coords.dims if k not in self.dims}
s = reduce(mul, d.values(), 1)
for dim in self.dims:
    n = chunk_size // s
    if n == 0:   d[dim] = 1
    elif n < coords[dim].size: d[dim] = n
    else:        d[dim] = coords[dim].size
    s *= d[dim]
return [d[dim] for dim in coords.dims]
```

Kept (non-reduced) dimensions take their full size; the reduced
dimensions are assigned greedily in order.  The returned list interleaves
kept and reduced entries in the original dimension order; the model
returns the kept block followed by the reduced block, which has the same
multiset of entries and hence the same product.  (With a kept size of 0
Python's `chunk_size // s` would raise `ZeroDivisionError`; Lean's `B / 0
= 0` takes the `n == 0` branch instead, a case outside every theorem
below.) -/

/-- The loop over `self.dims`: `s` is the running product of assigned
chunk lengths, one reduced dimension is assigned per step. -/
def chunk_shape_go (B : ℕ) : ℕ → List ℕ → List ℕ
  | _, [] => []
  | s, size :: rest =>
    let n := B / s
    let d := if n = 0 then 1 else if n < size then n else size
    d :: chunk_shape_go B (s * d) rest

/-- `Reduce.chunk_shape` for budget `B`, kept-dimension sizes `kept` and
reduced-dimension sizes `reduced`. -/
def chunk_shape (B : ℕ) (kept reduced : List ℕ) : List ℕ :=
  kept ++ chunk_shape_go B kept.prod reduced

/-- C3 counterexample: with budget `B = 1`, one kept dimension of size 2
and one reduced dimension of size 3, the computed chunk shape is `[2, 1]`:
a chunk holds 2 cells, exceeding the budget `B = 1`, because kept
dimensions always take their full size. -/
theorem chunk_shape_exceeds_budget :
    0 < (1 : ℕ) ∧ chunk_shape 1 [2] [3] = [2, 1] ∧
      ¬ (chunk_shape 1 [2] [3]).prod ≤ 1 := by
  decide

theorem chunk_shape_go_pos (B : ℕ) :
    ∀ (reduced : List ℕ) (s : ℕ), (∀ x ∈ reduced, 0 < x) →
      ∀ d ∈ chunk_shape_go B s reduced, 0 < d := by
  intro reduced
  induction reduced with
  | nil => intro s _ d hd; simp [chunk_shape_go] at hd
  | cons size rest ih =>
    intro s hr d hd
    simp only [chunk_shape_go, List.mem_cons] at hd
    rcases hd with hd | hd
    · subst hd
      by_cases h0 : B / s = 0
      · simp [h0]
      · by_cases hlt : B / s < size
        · simp only [h0, if_false, hlt, if_true]
          exact Nat.pos_of_ne_zero h0
        · simp only [h0, if_false, hlt, if_false]
          exact hr size (List.mem_cons_self _ _)
    · exact ih _ (fun x hx => hr x (List.mem_cons_of_mem _ hx)) d hd

theorem chunk_shape_go_prod_le (B : ℕ) :
    ∀ (reduced : List ℕ) (s : ℕ), (∀ x ∈ reduced, 0 < x) →
      0 < s → s ≤ B → s * (chunk_shape_go B s reduced).prod ≤ B := by
  intro reduced
  induction reduced with
  | nil => intro s _ _ hsB; simpa [chunk_shape_go] using hsB
  | cons size rest ih =>
    intro s hr hs hsB
    have hsize : 0 < size := hr size (List.mem_cons_self _ _)
    have hn : 0 < B / s := (Nat.le_div_iff_mul_le hs).mpr (by simpa using hsB)
    have hn0 : ¬ B / s = 0 := Nat.pos_iff_ne_zero.mp hn
    simp only [chunk_shape_go, hn0, if_false]
    set d := if B / s < size then B / s else size with hd
    have hdpos : 0 < d := by
      rw [hd]; split
      · exact hn
      · exact hsize
    have hdle : d ≤ B / s := by
      rw [hd]; split
      · exact Nat.le_refl _
      · omega
    have hsd : s * d ≤ B := by
      calc s * d ≤ s * (B / s) := Nat.mul_le_mul_left s hdle
        _ ≤ B := Nat.mul_div_le B s
    have := ih (s * d) (fun x hx => hr x (List.mem_cons_of_mem _ hx))
      (Nat.mul_pos hs hdpos) hsd
    calc s * (d :: chunk_shape_go B (s * d) rest).prod
        = s * d * (chunk_shape_go B (s * d) rest).prod := by
          rw [List.prod_cons, Nat.mul_assoc]
      _ ≤ B := this

/-- C3 (amended): for every positive budget `B` and every partition into
kept and reduced dimensions all of positive size, every entry of the
computed chunk shape is positive; and whenever the kept dimensions alone
fit the budget (`kept.prod ≤ B`) each chunk holds at most `B` cells.  The
unamended bound fails when the kept sizes already exceed `B` (see the
counterexample), since kept dimensions always take their full size. -/
theorem chunk_shape_pos_and_bounded (B : ℕ) (kept reduced : List ℕ)
    (hB : 0 < B) (hk : ∀ x ∈ kept, 0 < x) (hr : ∀ x ∈ reduced, 0 < x) :
    (∀ d ∈ chunk_shape B kept reduced, 0 < d) ∧
      (kept.prod ≤ B → (chunk_shape B kept reduced).prod ≤ B) := by
  constructor
  · intro d hd
    rcases List.mem_append.mp hd with h | h
    · exact hk d h
    · exact chunk_shape_go_pos B reduced kept.prod hr d h
  · intro hkB
    have hkpos : 0 < kept.prod := List.prod_pos hk
    have := chunk_shape_go_prod_le B reduced kept.prod hr hkpos hkB
    simpa [chunk_shape, List.prod_append] using this

/-- Witness for C3: budget 4, kept sizes `[2]`, reduced sizes `[3]` — the
chunk shape `[2, 2]` has positive entries and `2 * 2 ≤ 4` cells. -/
theorem chunk_shape_pos_and_bounded_witness :
    (chunk_shape 4 [2] [3]).prod ≤ 4 :=
  (chunk_shape_pos_and_bounded 4 [2] [3] (by decide) (by decide) (by decide)).2
    (by decide)

/-! ## OrderedCompositor (spec §4.8)

The compositor implementation file is not among the sources (only
`podpac/core/test/test_compositor.py` is), so the composition rule is
modelled from the specification's pseudocode. -/

/-- Modelled from the spec: `OrderedCompositor.composite` — the
implementation module `podpac/core/compositor.py` is missing from the
sources.  Per cell, per spec §4.8: the result starts as NaN (still
missing); for each source output in priority order, a cell is filled
exactly when the output is finite there and the cell is still missing
(`fill = isfinite(out) & mask`). -/
def OrderedCompositor.composite_cell (outputs : List (Option ℚ)) : Option ℚ :=
  outputs.foldl
    (fun r o =>
      match r, o with
      | none, some v => some v
      | _, _ => r)
    none

theorem composite_cell_foldl_some (l : List (Option ℚ)) (v : ℚ) :
    l.foldl
      (fun r o =>
        match r, o with
        | none, some w => some w
        | _, _ => r)
      (some v) = some v := by
  induction l with
  | nil => rfl
  | cons o rest ih => simpa using ih

theorem composite_cell_foldl_none (l : List (Option ℚ)) (h : ∀ o ∈ l, o = none) :
    l.foldl
      (fun r o =>
        match r, o with
        | none, some w => some w
        | _, _ => r)
      none = none := by
  induction l with
  | nil => rfl
  | cons o rest ih =>
    have ho : o = none := h o (List.mem_cons_self _ _)
    subst ho
    exact ih (fun o ho => h o (List.mem_cons_of_mem _ ho))

/-- C2: in the `OrderedCompositor`, every non-NaN cell of the composited
result carries the value of the earliest source whose output was finite
at that cell (all sources before it NaN there), and a result cell is NaN
only if every source's output was NaN at that cell. -/
theorem OrderedCompositor.composite_cell_ordered (outs : List (Option ℚ)) :
    (∀ (pre : List (Option ℚ)) (v : ℚ) (post : List (Option ℚ)),
        outs = pre ++ some v :: post → (∀ o ∈ pre, o = none) →
        OrderedCompositor.composite_cell outs = some v) ∧
      (OrderedCompositor.composite_cell outs = none → ∀ o ∈ outs, o = none) := by
  constructor
  · intro pre v post houts hpre
    subst houts
    unfold OrderedCompositor.composite_cell
    rw [List.foldl_append, composite_cell_foldl_none pre hpre]
    exact composite_cell_foldl_some post v
  · induction outs with
    | nil => intro _ o ho; simp at ho
    | cons o rest ih =>
      intro h o' ho'
      unfold OrderedCompositor.composite_cell at h
      cases o with
      | some v =>
        rw [List.foldl_cons] at h
        exact absurd (h ▸ composite_cell_foldl_some rest v) (by simp [h])
      | none =>
        rcases List.mem_cons.mp ho' with h0 | h0
        · exact h0
        · exact ih h o' h0

/-- Witness for C2: sources `[NaN, 3, 7]` composite to `3`, the value of
the earliest finite source. -/
theorem OrderedCompositor.composite_cell_ordered_witness :
    OrderedCompositor.composite_cell [none, some (3 : ℚ), some 7] = some 3 :=
  (OrderedCompositor.composite_cell_ordered [none, some 3, some 7]).1
    [none] 3 [some 7] rfl (by decide)

/-! ## DataSource (`podpac/core/data/data.py`)

`DataSource.execute` calls `get_data_subset(coords)`; `get_data_subset`
intersects the request with the native coordinates
(`native_coordinates.intersect(coordinates, pad=pad)`), short-circuits to
an all-NaN array shaped to the request when the intersection is empty,
optionally strides the subset for `nearest_preview`, and otherwise calls
`get_data`.  `Coordinate.intersect` lives in `podpac/core/coordinate.py`,
which is not among the sources; it is abstracted as the function
`intersectShape : pad ↦ shape of the intersected subset`, and only the
shape of the subset is tracked (the data path is abstracted by the
`get_data` and `interpolate_data` parameters). -/

/-- An N-D float array: a shape and the flat cell buffer (NaN = `none`). -/
structure UArray where
  shape : List ℕ
  data : List (Option ℚ)
deriving DecidableEq

/-- `self.initialize_coord_array(coordinates, init_type='nan')`: an
all-NaN array shaped to the given coordinates. -/
def initialize_coord_array_nan (shape : List ℕ) : UArray :=
  ⟨shape, List.replicate shape.prod none⟩

/-- The pad argument of the two `native_coordinates.intersect*` calls in
`DataSource.get_data_subset`.  The source hard-codes it:
`pad = 1#self.interpolation != 'nearest'` — the conditional is commented
out, so the pad is 1 for every interpolation method. -/
def get_data_subset_pad (interpolation : String) : ℕ := 1

/-- Result of `get_data_subset`: the single-element NaN shortcut list, or
the `(data, coords_subset)` pair. -/
inductive SubsetRes where
  | nanShortcut (a : UArray)
  | subset (data : UArray) (coordsShape : List ℕ)
deriving DecidableEq

/-- `DataSource.get_data_subset`: intersect at `pad`, return the all-NaN
request-shaped array if `np.prod(coords_subset.shape) == 0`, else stride
the subset when `interpolation == 'nearest_preview'` (the stride step is
abstracted as `preview_adjust`) and fetch via `get_data`. -/
def DataSource.get_data_subset (interpolation : String)
    (intersectShape : ℕ → List ℕ) (preview_adjust : List ℕ → List ℕ)
    (requestShape : List ℕ) (get_data : List ℕ → UArray) : SubsetRes :=
  let coordsSubsetShape := intersectShape (get_data_subset_pad interpolation)
  if coordsSubsetShape.prod = 0 then
    .nanShortcut (initialize_coord_array_nan requestShape)
  else
    let cs := if interpolation = "nearest_preview" then
        preview_adjust coordsSubsetShape
      else coordsSubsetShape
    .subset (get_data cs) cs

/-- `DataSource.execute`: if `get_data_subset` returned the length-one
shortcut, that all-NaN array is the output; otherwise the fetched subset
is interpolated onto the request. -/
def DataSource.execute (interpolation : String)
    (intersectShape : ℕ → List ℕ) (preview_adjust : List ℕ → List ℕ)
    (requestShape : List ℕ) (get_data : List ℕ → UArray)
    (interpolate_data : UArray → List ℕ → UArray) : UArray :=
  match DataSource.get_data_subset interpolation intersectShape preview_adjust
      requestShape get_data with
  | .nanShortcut a => a
  | .subset d cs => interpolate_data d cs

/-- C4: whenever the intersection of the native coordinates with the
request is empty, `execute` returns an all-NaN array shaped to the
request; the case is handled by a normal return (no error path), and the
result does not depend on `get_data` or `interpolate_data` — neither is
called. -/
theorem DataSource.execute_empty_intersection (interpolation : String)
    (intersectShape : ℕ → List ℕ) (preview_adjust : List ℕ → List ℕ)
    (requestShape : List ℕ) (get_data : List ℕ → UArray)
    (interpolate_data : UArray → List ℕ → UArray)
    (h : (intersectShape (get_data_subset_pad interpolation)).prod = 0) :
    (DataSource.execute interpolation intersectShape preview_adjust
        requestShape get_data interpolate_data).shape = requestShape ∧
      (∀ v ∈ (DataSource.execute interpolation intersectShape preview_adjust
        requestShape get_data interpolate_data).data, v = none) ∧
      (∀ (gd : List ℕ → UArray) (itp : UArray → List ℕ → UArray),
        DataSource.execute interpolation intersectShape preview_adjust
            requestShape get_data interpolate_data =
          DataSource.execute interpolation intersectShape preview_adjust
            requestShape gd itp) := by
  have key : ∀ (gd : List ℕ → UArray) (itp : UArray → List ℕ → UArray),
      DataSource.execute interpolation intersectShape preview_adjust
          requestShape gd itp = initialize_coord_array_nan requestShape := by
    intro gd itp
    simp only [DataSource.execute, DataSource.get_data_subset]
    rw [if_pos h]
  refine ⟨?_, ?_, ?_⟩
  · rw [key]; rfl
  · rw [key]
    intro v hv
    exact (List.mem_replicate.mp hv).2
  · intro gd itp
    rw [key, key]

/-- Witness for C4: an empty intersection (`shape [0]`) with request
shape `[2, 3]` yields an output shaped `[2, 3]`. -/
theorem DataSource.execute_empty_intersection_witness :
    (DataSource.execute "bilinear" (fun _ => [0]) id [2, 3]
        (fun s => ⟨s, []⟩) (fun a _ => a)).shape = [2, 3] :=
  (DataSource.execute_empty_intersection "bilinear" (fun _ => [0]) id [2, 3]
    (fun s => ⟨s, []⟩) (fun a _ => a) (by decide)).1

/-- C7 counterexample: the claim says the intersection is padded by
`(method != "nearest")`, i.e. pad 0 for `nearest` — but the source
hard-codes `pad = 1` (the conditional after the `#` is commented out), so
even `nearest` intersects with pad 1. -/
theorem get_data_subset_pad_nearest_not_conditional :
    ¬ (get_data_subset_pad "nearest" =
        if ("nearest" : String) ≠ "nearest" then 1 else 0) := by
  decide

/-- C7 (amended): the intersection in `get_data_subset` is computed with
pad 1 for every interpolation method, including `nearest`: the pad value
is the constant 1, and the subset depends on the intersection only
through its value at pad 1. -/
theorem get_data_subset_pad_always_one (interpolation : String)
    (intersectShape intersectShape' : ℕ → List ℕ)
    (preview_adjust : List ℕ → List ℕ) (requestShape : List ℕ)
    (get_data : List ℕ → UArray) (h : intersectShape 1 = intersectShape' 1) :
    get_data_subset_pad interpolation = 1 ∧
      DataSource.get_data_subset interpolation intersectShape preview_adjust
          requestShape get_data =
        DataSource.get_data_subset interpolation intersectShape' preview_adjust
          requestShape get_data := by
  refine ⟨rfl, ?_⟩
  unfold DataSource.get_data_subset
  rw [show intersectShape (get_data_subset_pad interpolation) = intersectShape' (get_data_subset_pad interpolation) from h]

/-- Witness for C7's amended theorem: two intersection functions agreeing
at pad 1 produce identical subsets for method `nearest`. -/
theorem get_data_subset_pad_always_one_witness :
    DataSource.get_data_subset "nearest" (fun _ => [2]) id [3]
        (fun s => ⟨s, []⟩) =
      DataSource.get_data_subset "nearest" (fun p => [p + 1]) id [3]
        (fun s => ⟨s, []⟩) :=
  (get_data_subset_pad_always_one "nearest" (fun _ => [2]) (fun p => [p + 1])
    id [3] (fun s => ⟨s, []⟩) rfl).2

/-! ## Reduce.dims (`podpac/core/algorithm/statistics.py`, lines 18–53)

```
input_dims = self.input_coordinates.dims
if self.params is None or 'dims' not in self.params:
    return input_dims
valid_dims = []
if 'time' in input_dims:    valid_dims.append('time')
if 'lat_lon' in input_dims: valid_dims.append('lat_lon')
if 'lat' in input_dims and 'lon' in input_dims: valid_dims.append('lat_lon')
if 'alt' in input_dims:     valid_dims.append('alt')
dims = []
for dim in params_dims:
    if dim not in valid_dims: raise ValueError(...)
    elif dim in input_dims:   dims.append(dim)
    elif dim == 'lat_lon':    dims.append('lat'); dims.append('lon')
return dims
```

`params` being `None` or lacking a `'dims'` entry is modelled as `none`;
a requested list as `some`. -/

/-- The `valid_dims` list computed by `Reduce.dims`. -/
def validDims (input_dims : List String) : List String :=
  (if input_dims.contains "time" then ["time"] else []) ++
  (if input_dims.contains "lat_lon" then ["lat_lon"] else []) ++
  (if input_dims.contains "lat" && input_dims.contains "lon" then
      ["lat_lon"] else []) ++
  (if input_dims.contains "alt" then ["alt"] else [])

/-- The `for dim in params_dims` loop: raise on the first name outside
`valid_dims`, translate `'lat_lon'` to `['lat', 'lon']` when it is not
itself an input dimension. -/
def Reduce.dims_go (input_dims : List String) :
    List String → Except String (List String)
  | [] => .ok []
  | d :: rest =>
    if (validDims input_dims).contains d then
      Except.map
        (fun tail =>
          if input_dims.contains d then d :: tail
          else if d = "lat_lon" then "lat" :: "lon" :: tail
          else tail)
        (Reduce.dims_go input_dims rest)
    else .error ("Invalid Reduce dimension: " ++ d)

/-- `Reduce.dims`: with no requested dims, every input dimension is
reduced; otherwise the requested names are validated and translated. -/
def Reduce.dims (input_dims : List String) (params_dims : Option (List String)) :
    Except String (List String) :=
  match params_dims with
  | none => .ok input_dims
  | some ds => Reduce.dims_go input_dims ds

/-- C5 counterexample: with input dimensions `['lat', 'lon', 'time']`,
the requested reduce dimension `'lat'` is among the input's dimensions
and yet is rejected with `ValueError`, because the validation checks the
derived `valid_dims` list (`['time', 'lat_lon']`), not the input
dimensions. -/
theorem Reduce.dims_rejects_present_lat :
    "lat" ∈ ["lat", "lon", "time"] ∧
      Reduce.dims ["lat", "lon", "time"] (some ["lat"]) =
        .error "Invalid Reduce dimension: lat" := by
  constructor
  · simp
  · rfl

/-- C5 (amended): `Reduce.dims` rejects a request (raises `ValueError`)
exactly when some requested name lies outside the derived `valid_dims`
set — `'time'`/`'alt'` when present among the input dimensions, and
`'lat_lon'` when it is an input dimension or both `'lat'` and `'lon'`
are.  In particular `'lat'` or `'lon'` alone are rejected even when they
are input dimensions, and `'lat_lon'` is accepted (translated to
`['lat', 'lon']`) when it is not itself an input dimension. -/
theorem Reduce.dims_error_iff (input_dims ds : List String) :
    (∃ e, Reduce.dims input_dims (some ds) = .error e) ↔
      ∃ d ∈ ds, ¬ (validDims input_dims).contains d := by
  show (∃ e, Reduce.dims_go input_dims ds = .error e) ↔ _
  induction ds with
  | nil =>
    simp [Reduce.dims_go]
  | cons d rest ih =>
    by_cases hd : (validDims input_dims).contains d = true
    · rcases hgo : Reduce.dims_go input_dims rest with e' | tail
      · constructor
        · intro _
          rcases ih.mp ⟨e', hgo⟩ with ⟨d', hd', hv⟩
          exact ⟨d', List.mem_cons_of_mem _ hd', hv⟩
        · intro _
          refine ⟨e', ?_⟩
          unfold Reduce.dims_go
          rw [if_pos hd, hgo]
          rfl
      · constructor
        · intro ⟨e, he⟩
          unfold Reduce.dims_go at he
          rw [if_pos hd, hgo] at he
          simp [Except.map] at he
        · intro ⟨d', hd', hv⟩
          rcases List.mem_cons.mp hd' with h | h
          · exact absurd hd (h ▸ hv)
          · rcases ih.mpr ⟨d', h, hv⟩ with ⟨e, he⟩
            rw [hgo] at he
            exact Except.noConfusion he
    · constructor
      · intro _
        exact ⟨d, List.mem_cons_self _ _, hd⟩
      · intro _
        refine ⟨"Invalid Reduce dimension: " ++ d, ?_⟩
        unfold Reduce.dims_go
        rw [if_neg hd]

/-- `Reduce.get_reduced_coordinates`: keep, in order, the dimensions of
the evaluated coordinates that are not reduced (`if dim in self.dims:
continue`); the result is the dimension list of the output `Coordinate`. -/
def get_reduced_coordinates (coord_dims dims : List String) : List String :=
  coord_dims.filter (fun d => ! dims.contains d)

/-- C10: when `params` is `None` or has no `'dims'` entry, `Reduce.dims`
returns all of the input coordinates' dimensions, and
`get_reduced_coordinates` of the request (the same coordinates) is then
empty — the evaluated output coordinates are empty, a scalar result. -/
theorem Reduce.dims_default_collapses_all (input_dims : List String) :
    Reduce.dims input_dims none = .ok input_dims ∧
      get_reduced_coordinates input_dims input_dims = [] := by
  refine ⟨rfl, ?_⟩
  rw [show get_reduced_coordinates input_dims input_dims =
      input_dims.filter (fun d => ! input_dims.contains d) from rfl,
    List.filter_eq_nil_iff]
  intro d hd
  simp [hd]

/-! ## Axis select (spec §4.1, §8; tests in
`podpac/core/coordinates/test/test_array_coordinates1d.py`) -/

/-- The largest axis value not above `lo`, when one exists (otherwise
`lo` itself): the one-element widening of the lower bound used by
`outer` selection. -/
def maxBelow (a : List ℚ) (lo : ℚ) : ℚ :=
  match a.filter (fun x => decide (x ≤ lo)) with
  | [] => lo
  | y :: ys => ys.foldl max y

/-- The smallest axis value not below `hi`, when one exists (otherwise
`hi` itself): the one-element widening of the upper bound used by
`outer` selection. -/
def minAbove (a : List ℚ) (hi : ℚ) : ℚ :=
  match a.filter (fun x => decide (hi ≤ x)) with
  | [] => hi
  | y :: ys => ys.foldl min y

/-- Modelled from the spec: `ArrayCoordinates1d.select` — the coordinates
implementation module is missing from the sources (only its test file
`test_array_coordinates1d.py` is present).  Per spec §4.1: the sub-axis
of the values falling within the bounds, preserving original ordering,
boundary values included (mask selection); with `outer=true` the bounds
are first widened by one neighbouring axis value on each side when such
a neighbour exists, matching the `test_select_outer_*` expectations. -/
def select (a : List ℚ) (lo hi : ℚ) (outer : Bool) : List ℚ :=
  let lo' := if outer then maxBelow a lo else lo
  let hi' := if outer then minAbove a hi else hi
  a.filter (fun x => decide (lo' ≤ x ∧ x ≤ hi'))

theorem foldl_max_le (c : ℚ) :
    ∀ (ys : List ℚ) (y : ℚ), y ≤ c → (∀ z ∈ ys, z ≤ c) → ys.foldl max y ≤ c := by
  intro ys
  induction ys with
  | nil => intro y hy _; exact hy
  | cons z zs ih =>
    intro y hy hz
    rw [List.foldl_cons]
    exact ih (max y z)
      (max_le hy (hz z (List.mem_cons_self _ _)))
      (fun w hw => hz w (List.mem_cons_of_mem _ hw))

theorem le_foldl_min (c : ℚ) :
    ∀ (ys : List ℚ) (y : ℚ), c ≤ y → (∀ z ∈ ys, c ≤ z) → c ≤ ys.foldl min y := by
  intro ys
  induction ys with
  | nil => intro y hy _; exact hy
  | cons z zs ih =>
    intro y hy hz
    rw [List.foldl_cons]
    exact ih (min y z)
      (le_min hy (hz z (List.mem_cons_self _ _)))
      (fun w hw => hz w (List.mem_cons_of_mem _ hw))

theorem maxBelow_le (a : List ℚ) (lo : ℚ) : maxBelow a lo ≤ lo := by
  unfold maxBelow
  cases hf : a.filter (fun x => decide (x ≤ lo)) with
  | nil => exact le_refl lo
  | cons y ys =>
    have hmem : ∀ z ∈ y :: ys, z ≤ lo := by
      intro z hz
      rw [← hf] at hz
      exact of_decide_eq_true (List.mem_filter.mp hz).2
    exact foldl_max_le lo ys y (hmem y (List.mem_cons_self _ _))
      (fun z hz => hmem z (List.mem_cons_of_mem _ hz))

theorem le_minAbove (a : List ℚ) (hi : ℚ) : hi ≤ minAbove a hi := by
  unfold minAbove
  cases hf : a.filter (fun x => decide (hi ≤ x)) with
  | nil => exact le_refl hi
  | cons y ys =>
    have hmem : ∀ z ∈ y :: ys, hi ≤ z := by
      intro z hz
      rw [← hf] at hz
      exact of_decide_eq_true (List.mem_filter.mp hz).2
    exact le_foldl_min hi ys y (hmem y (List.mem_cons_self _ _))
      (fun z hz => hmem z (List.mem_cons_of_mem _ hz))

/-- C6: for every axis `a` and bounds `[lo, hi]`, `a.select([lo, hi])`
is a subsequence of `a` in original order whose values all lie within
the bounds; a value exactly on a boundary is included; and the
coordinates selected with `outer=true` are a superset (again as a
subsequence of `a`) of those selected with `outer=false`. -/
theorem select_subsequence_bounds_outer (a : List ℚ) (lo hi : ℚ) :
    (select a lo hi false).Sublist a ∧
      (∀ x ∈ select a lo hi false, lo ≤ x ∧ x ≤ hi) ∧
      (∀ x ∈ a, lo ≤ x → x ≤ hi → x ∈ select a lo hi false) ∧
      (select a lo hi false).Sublist (select a lo hi true) := by
  refine ⟨List.filter_sublist a, ?_, ?_, ?_⟩
  · intro x hx
    exact of_decide_eq_true (List.mem_filter.mp hx).2
  · intro x hx hlo hhi
    exact List.mem_filter.mpr ⟨hx, decide_eq_true ⟨hlo, hhi⟩⟩
  · apply List.monotone_filter_right
    intro x hx
    have h := of_decide_eq_true hx
    exact decide_eq_true
      ⟨le_trans (by simpa [select] using maxBelow_le a lo) h.1,
       le_trans h.2 (by simpa [select] using le_minAbove a hi)⟩

/-- Witness for C6 at the test's axis `[20, 50, 60, 90, 40, 10]` with
bounds `[30, 55]`: the inner selection `[50, 40]` keeps original order,
stays within bounds, and is contained in the outer selection. -/
theorem select_subsequence_bounds_outer_witness :
    select [20, 50, 60, 90, 40, 10] 30 55 false = [50, 40] ∧
      (50 : ℚ) ∈ select [20, 50, 60, 90, 40, 10] 30 55 false :=
  ⟨by decide,
   (select_subsequence_bounds_outer [20, 50, 60, 90, 40, 10] 30 55).2.2.1
     50 (by decide) (by decide) (by decide)⟩

/-! ## nearest_preview striding (`podpac/core/data/data.py`, lines 78–104)

```
ndelta = np.round(coordinates[d].delta / coords_subset[d].delta)
if ndelta <= 1:
    ndelta = coords_subset[d].delta
coords = tuple(coords_subset[d].coords[:2]) + (ndelta * coords_subset[d].delta,)
new_coords_slc.append(slice(start, stop, int(ndelta)))
```

Applied per uniform (`regularity == 'regular'`) axis present in the
request. -/

/-- `np.round`: round half to even (numpy banker's rounding). -/
def npRound (q : ℚ) : ℤ :=
  let f := ⌊q⌋
  let r := q - f
  if r < 1 / 2 then f
  else if 1 / 2 < r then f + 1
  else if f % 2 = 0 then f else f + 1

/-- Python `int()` on a float: truncation toward zero. -/
def pyInt (q : ℚ) : ℤ :=
  if 0 ≤ q then ⌊q⌋ else -⌊-q⌋

/-- The `ndelta` value computed for a uniform axis in the
`nearest_preview` branch of `get_data_subset`: `round(request_step /
native_step)`, but replaced by the *native step itself* when the rounded
ratio is ≤ 1. -/
def nearest_preview_ndelta (requestDelta nativeDelta : ℚ) : ℚ :=
  let nd : ℚ := (npRound (requestDelta / nativeDelta) : ℤ)
  if nd ≤ 1 then nativeDelta else nd

/-- The slice stride the code then uses: `int(ndelta)`. -/
def nearest_preview_stride (requestDelta nativeDelta : ℚ) : ℤ :=
  pyInt (nearest_preview_ndelta requestDelta nativeDelta)

/-- C8: with request step 1 over a native step of 2 the rounded ratio is
`round(1/2) = 0 ≤ 1`, and the code sets `ndelta` to the native step
itself (2), producing slice stride `int(2) = 2` — not the stride 1 (the
source's own cadence) that the claim states; with request step 1/2 over
native step 2/5 the rounded ratio is `round(5/4) = 1 ≤ 1` and the
fallback yields stride `int(2/5) = 0`, which `slice` rejects with
`ValueError` — so the stride even drops below 1. -/
theorem nearest_preview_stride_not_clamped :
    nearest_preview_ndelta 1 2 = 2 ∧
      nearest_preview_stride 1 2 = 2 ∧ (2 : ℤ) ≠ 1 ∧
      nearest_preview_stride (1 / 2) (2 / 5) = 0 := by
  refine ⟨?_, ?_, by decide, ?_⟩ <;>
    norm_num [nearest_preview_ndelta, nearest_preview_stride, npRound, pyInt]

/-! ## KD-tree nearest for stacked point data
(`podpac/core/data/data.py`, `interpolate_point_data`, lines 317–359)

```
tol = np.linalg.norm([coords_dst.delta[i], coords_dst.delta[j]]) * 8
pts = KDTree(np.stack(pts, axis=1))
dist, ind = pts.query(np.stack((lon.ravel(), lat.ravel()), axis=1),
        distance_upper_bound=tol)
vals = data_src[{order: ind}]
```

`scipy.spatial.KDTree.query` with `distance_upper_bound=tol` returns, for
a destination point with no source point within `tol`, the distance
`inf` and the *index `n`* (the number of source points).  Distances are
Euclidean; the comparison `dist ≤ tol` is modelled on squares to stay in
ℚ (`tol = 8·‖δ‖`, so `tol² = 64·(δ_lat² + δ_lon²)`). -/

/-- Squared Euclidean distance between two points of the plane. -/
def sqDist (p q : ℚ × ℚ) : ℚ :=
  (p.1 - q.1) ^ 2 + (p.2 - q.2) ^ 2

/-- The square of the `distance_upper_bound` passed to `KDTree.query`:
`tol = np.linalg.norm([delta_lat, delta_lon]) * 8`. -/
def interpolation_tol_sq (deltaLat deltaLon : ℚ) : ℚ :=
  64 * (deltaLat ^ 2 + deltaLon ^ 2)

/-- Running argmin over the remaining squared distances (`i` is the index
of the next entry, `bi`/`bd` the best index and squared distance so far;
ties keep the earlier index, as scipy does). -/
def kdtree_query_go : List ℚ → ℕ → ℕ → ℚ → ℕ × ℚ
  | [], _, bi, bd => (bi, bd)
  | d :: ds, i, bi, bd =>
    if d < bd then kdtree_query_go ds (i + 1) i d
    else kdtree_query_go ds (i + 1) bi bd

/-- `KDTree.query(dst, distance_upper_bound=tol)` for one destination
point: the index of the nearest source point when it lies within the
bound, and otherwise `n`, the number of source points (scipy's missing
marker). -/
def kdtree_query (srcPts : List (ℚ × ℚ)) (tolSq : ℚ) (dst : ℚ × ℚ) : ℕ :=
  match srcPts.map (fun p => sqDist p dst) with
  | [] => srcPts.length
  | d :: ds =>
    let best := kdtree_query_go ds 1 0 d
    if best.2 ≤ tolSq then best.1 else srcPts.length

/-- `data_src[{order: ind}]`: integer-array indexing of the source data;
an out-of-range index (scipy's missing marker `n`) raises `IndexError`,
modelled as `none`. -/
def index_gather (data : List ℚ) (idxs : List ℕ) : Option (List ℚ) :=
  idxs.mapM (fun i => data.get? i)

/-- `DataSource.interpolate_point_data` (stacked source to `lat`/`lon`
grid branch): query the KD-tree of the source points for every
destination point with the `8 × ‖δ‖` upper bound, then gather the source
data at the returned indices. -/
def interpolate_point_data (srcPts : List (ℚ × ℚ)) (srcData : List ℚ)
    (deltaLat deltaLon : ℚ) (dstPts : List (ℚ × ℚ)) : Option (List ℚ) :=
  let tolSq := interpolation_tol_sq deltaLat deltaLon
  let inds := dstPts.map (kdtree_query srcPts tolSq)
  index_gather srcData inds

/-- C9: the KD-tree is indeed queried with the `8 × ‖δ‖` upper bound
(`tol² = 64·(δ_lat² + δ_lon²)`), but a destination point whose nearest
source point lies beyond the bound does NOT receive NaN: scipy returns
the out-of-range index `n` for it, and the code's `data_src[{order: ind}]`
gather raises `IndexError`.  Concretely, for the single source point
`(0,0)` with datum 5, destination spacing `δ = (1,1)` (bound `8·√2`), the
destination point `(100,100)` is `√20000 > 8·√2` away: the query returns
index 1 = n and the evaluation errors instead of producing NaN. -/
theorem interpolate_point_data_out_of_bound_errors :
    interpolation_tol_sq 1 1 = 128 ∧
      kdtree_query [(0, 0)] (interpolation_tol_sq 1 1) (100, 100) = 1 ∧
      interpolate_point_data [(0, 0)] [5] 1 1 [(100, 100)] = none := by
  refine ⟨by norm_num [interpolation_tol_sq], ?_, ?_⟩
  · norm_num [kdtree_query, kdtree_query_go, sqDist, interpolation_tol_sq]
  · norm_num [interpolate_point_data, kdtree_query, kdtree_query_go, sqDist,
      interpolation_tol_sq, index_gather]
    rfl
